import Mathlib

/-!
# Verification of the dynamic agent factory core

A shallow embedding, in Lean 4, of the core generation / validation /
caching pipeline of the `openhands-dynamic-agent-factor` repository.

Each component is translated from the Python source:

* `openhands_dynamic_agent_factory/core/utils.py` —
  `Cache`, `StateManager` (load/save with backup), `retry`,
  `CodeValidator`, `StructureValidator`;
* `openhands_dynamic_agent_factory/core/keyword_manager.py` —
  `AgentInfo`, `KeywordManager.detect_keyword`, `KeywordManager.get_agent`,
  `KeywordManager.update_agent_status`;
* `openhands_dynamic_agent_factory/core/factory.py` —
  `DynamicAgentFactoryLLM.generate_agent` and `_generate_code`;
* `openhands_dynamic_agent_factory/core/dynamic_agent_factory.py` —
  `DynamicAgentFactory.run`.

Python dictionaries are modelled as association lists in insertion order
(Python dicts preserve insertion order; assignment to an existing key keeps
its position).  Machine clock values are modelled by `ℚ` where the code uses
`time.time()` floats and by plain payload values where it stores
`datetime.isoformat()` strings.  Fallible operations return explicit result
values (`Except` / result structures), mirroring the code's catch-all
handlers.  File-system effects of `StateManager` act on an explicit
two-slot file state (primary path and `.backup` path).
-/

namespace AgentFactory

/-! ## Association lists (Python `dict` in insertion order) -/

/-- First value bound to `k`, scanning left to right (Python `d[k]` /
`d.get(k)`; with unique keys this is the dict lookup). -/
def findVal [DecidableEq K] : List (K × α) → K → Option α
  | [], _ => none
  | (k₀, v) :: rest, k => if k₀ = k then some v else findVal rest k

/-- `d[k] = v`: replace the value at the first binding of `k`, keeping its
position, or append a new binding (Python dict assignment semantics). -/
def setEntry [DecidableEq K] : List (K × α) → K → α → List (K × α)
  | [], k, v => [(k, v)]
  | (k₀, v₀) :: rest, k, v =>
    if k₀ = k then (k₀, v) :: rest else (k₀, v₀) :: setEntry rest k v

/-- `del d[k]`: remove the first binding of `k`. -/
def eraseEntry [DecidableEq K] : List (K × α) → K → List (K × α)
  | [], _ => []
  | (k₀, v₀) :: rest, k =>
    if k₀ = k then rest else (k₀, v₀) :: eraseEntry rest k

/-- `{**old, **new}`: start from `old` and assign every binding of `new`
in order (Python dict-merge semantics: new keys overwrite old, old keys
keep their position, fresh keys are appended). -/
def dictMerge [DecidableEq K] (old new : List (K × α)) : List (K × α) :=
  new.foldl (fun d kv => setEntry d kv.1 kv.2) old

theorem findVal_append [DecidableEq K] (l₁ l₂ : List (K × α)) (k : K) :
    findVal (l₁ ++ l₂) k = (findVal l₁ k).or (findVal l₂ k) := by
  induction l₁ with
  | nil => simp [findVal]
  | cons kv rest ih =>
    by_cases hk : kv.1 = k
    · simp [findVal, hk]
    · simp [findVal, hk, ih]

theorem mem_keys_of_findVal_eq_some [DecidableEq K] {l : List (K × α)} {k : K}
    {v : α} (h : findVal l k = some v) : k ∈ l.map Prod.fst := by
  induction l with
  | nil => simp [findVal] at h
  | cons kv rest ih =>
    by_cases hk : kv.1 = k
    · simp [hk]
    · simp only [findVal, if_neg hk] at h
      simp [ih h]

theorem findVal_eq_none_of_not_mem_keys [DecidableEq K] {l : List (K × α)}
    {k : K} (h : k ∉ l.map Prod.fst) : findVal l k = none := by
  rcases Option.eq_none_or_eq_some (findVal l k) with hn | ⟨v, hv⟩
  · exact hn
  · exact absurd (mem_keys_of_findVal_eq_some hv) h

theorem findVal_setEntry_self [DecidableEq K] (l : List (K × α)) (k : K) (v : α) :
    findVal (setEntry l k v) k = some v := by
  induction l with
  | nil => simp [setEntry, findVal]
  | cons kv rest ih =>
    by_cases h : kv.1 = k
    · simp [setEntry, findVal, h]
    · simp [setEntry, findVal, h, ih]

theorem findVal_setEntry_ne [DecidableEq K] (l : List (K × α)) (k k' : K) (v : α)
    (h : k' ≠ k) : findVal (setEntry l k v) k' = findVal l k' := by
  have hne : k ≠ k' := Ne.symm h
  induction l with
  | nil => simp [setEntry, findVal, hne]
  | cons kv rest ih =>
    by_cases hk : kv.1 = k
    · subst hk
      simp [setEntry, findVal, hne]
    · simp only [setEntry, if_neg hk]
      by_cases hk' : kv.1 = k'
      · simp [findVal, hk']
      · simp [findVal, hk', ih]

theorem findVal_dictMerge [DecidableEq K] (old new : List (K × α)) (k : K) :
    findVal (dictMerge old new) k =
      (findVal new.reverse k).or (findVal old k) := by
  induction new generalizing old with
  | nil => simp [dictMerge, findVal]
  | cons kv rest ih =>
    show findVal (dictMerge (setEntry old kv.1 kv.2) rest) k = _
    rw [ih, List.reverse_cons, findVal_append]
    by_cases hk : kv.1 = k
    · subst hk
      cases hr : findVal rest.reverse kv.1 <;>
        simp [findVal, findVal_setEntry_self, hr]
    · cases hr : findVal rest.reverse k <;>
        simp [findVal, hk, findVal_setEntry_ne old kv.1 k kv.2 (Ne.symm hk), hr]

/-- If `l`'s keys contain no duplicates, reversing it does not change
lookups. -/
theorem findVal_reverse_of_nodup [DecidableEq K] (l : List (K × α))
    (h : (l.map Prod.fst).Nodup) (k : K) :
    findVal l.reverse k = findVal l k := by
  induction l with
  | nil => simp
  | cons kv rest ih =>
    simp only [List.map_cons, List.nodup_cons] at h
    rw [List.reverse_cons, findVal_append, ih h.2]
    by_cases hk : kv.1 = k
    · subst hk
      have : findVal rest kv.1 = none :=
        findVal_eq_none_of_not_mem_keys (by simpa using h.1)
      simp [this, findVal]
    · cases hrest : findVal rest k <;> simp [findVal, hk, hrest]

theorem findVal_eraseEntry_self [DecidableEq K] (l : List (K × α)) (k : K)
    (h : (l.map Prod.fst).Nodup) : findVal (eraseEntry l k) k = none := by
  induction l with
  | nil => simp [eraseEntry, findVal]
  | cons kv rest ih =>
    simp only [List.map_cons, List.nodup_cons] at h
    by_cases hk : kv.1 = k
    · subst hk
      simp only [eraseEntry, if_pos rfl]
      exact findVal_eq_none_of_not_mem_keys (by simpa using h.1)
    · simp [eraseEntry, hk, findVal, ih h.2]

/-! ## JSON documents

The values `StateManager` serializes (`json.dump` / `json.loads`) and the
`Dict[str, Any]` payloads carried in metadata.  Objects keep Python's
insertion order. -/

inductive Json where
  | null : Json
  | bool : Bool → Json
  | num : Int → Json
  | str : String → Json
  | arr : List Json → Json
  | obj : List (String × Json) → Json

/-! ## StateManager (`core/utils.py`, lines 118–205)

The two file-system slots a `StateManager` touches: the primary
`state_file` path and the `<file>.backup` path.  `corrupt` stands for a
file whose write was interrupted (`open('w')` truncates/creates the file
before `json.dump` fills it), which `json.loads` cannot parse. -/

inductive FileData where
  | missing : FileData
  | corrupt : FileData
  | doc : Json → FileData

def FileData.present : FileData → Bool
  | .missing => false
  | _ => true

structure FS where
  primary : FileData
  backup : FileData

/-- `OperationResult` (`utils.py`, lines 74–81), restricted to the fields
the claims are about.  `errorType` is the `BaseError.error_type` of the
error stored in the result, when any. -/
structure OpResult (α : Type) where
  success : Bool
  data : Option α
  errorType : Option String
deriving DecidableEq

/-- `StateManager.load_state` (`utils.py`, lines 138–162): read the file,
parse it, require a dict with a `'data'` key, and return its `'data'`
entry; any exception (missing file, unparseable content, bad shape) is
caught and surfaced as a `StateError` inside the result. -/
def loadState (fs : FS) : OpResult Json :=
  match fs.primary with
  | .missing => ⟨false, none, some "StateError"⟩
  | .corrupt => ⟨false, none, some "StateError"⟩
  | .doc j =>
    match j with
    | .obj kvs =>
      match findVal kvs "data" with
      | some d => ⟨true, some d, none⟩
      | none => ⟨false, none, some "StateError"⟩
    | _ => ⟨false, none, some "StateError"⟩

/-- The metadata update in `save_state` (`utils.py`, lines 176–179):
`state['metadata'] = {**(state.get('metadata', {})), 'last_updated': now}`.
Returns `none` when the Python expression raises (`state` is not a dict,
or its `'metadata'` entry is present but not a dict). -/
def updateMeta (state : Json) (nowIso : String) : Option Json :=
  match state with
  | .obj kvs =>
    match findVal kvs "metadata" with
    | none =>
      some (.obj (setEntry kvs "metadata" (.obj [("last_updated", .str nowIso)])))
    | some (.obj mkvs) =>
      some (.obj (setEntry kvs "metadata"
        (.obj (setEntry mkvs "last_updated" (.str nowIso)))))
    | some _ => none
  | _ => none

/-- The injected exception points of `save_state`: the rename of the
primary file to the backup path, the write of the new content, and the
unlink of the backup file. -/
inductive SaveFailure where
  | renameToBackup : SaveFailure
  | writeNew : SaveFailure
  | unlinkBackup : SaveFailure
deriving DecidableEq

/-- The `except` handler of `save_state` (`utils.py`, lines 197–205):
if the backup file exists, rename it back over the primary path. -/
def restoreBackup (fs : FS) : FS :=
  if fs.backup.present then { primary := fs.backup, backup := .missing }
  else fs

/-- `StateManager.save_state` (`utils.py`, lines 164–205).  Steps, in
source order: rename the primary file to `<file>.backup` when it exists;
update the state's metadata; write the new state to the primary path;
unlink the backup.  `inj` injects an exception at one of the fallible
steps (the injection fires only if that step actually executes); the
handler restores the backup and surfaces a `StateError` in the result. -/
def saveState (fs : FS) (state : Json) (nowIso : String)
    (inj : Option SaveFailure) : OpResult Bool × FS :=
  let fail : OpResult Bool := ⟨false, none, some "StateError"⟩
  if fs.primary.present ∧ inj = some .renameToBackup then
    (fail, restoreBackup fs)
  else
    let fs1 : FS :=
      if fs.primary.present then { primary := .missing, backup := fs.primary }
      else fs
    match updateMeta state nowIso with
    | none => (fail, restoreBackup fs1)
    | some state' =>
      if inj = some .writeNew then
        (fail, restoreBackup { fs1 with primary := .corrupt })
      else
        let fs2 : FS := { fs1 with primary := .doc state' }
        if fs2.backup.present ∧ inj = some .unlinkBackup then
          (fail, restoreBackup fs2)
        else
          (⟨true, some true, none⟩, { fs2 with backup := .missing })

theorem loadState_eq_of_primary_eq (fs fs' : FS)
    (h : fs'.primary = fs.primary) : loadState fs' = loadState fs := by
  unfold loadState
  rw [h]

/-- C1: whenever `save_state` fails — at the backup rename, the metadata
update, the write of the new content, or the backup unlink — the backup is
restored over the primary path: `load_state` afterwards returns exactly
what it returned before the save, and the failure is surfaced as a
`StateError` inside the returned result (the function returns a result, it
does not raise).  The hypothesis `hb` is the invariant that no stale
`.backup` file is left behind (every exit path of `save_state` removes
it). -/
theorem saveState_failure_restores_prior_state (fs : FS) (state : Json)
    (nowIso : String) (inj : Option SaveFailure)
    (hb : fs.backup = .missing)
    (hfail : (saveState fs state nowIso inj).1.success = false) :
    (saveState fs state nowIso inj).1.errorType = some "StateError" ∧
    loadState (saveState fs state nowIso inj).2 = loadState fs := by
  obtain ⟨p, b⟩ := fs
  cases hb
  rcases hum : updateMeta state nowIso with - | s' <;>
    rcases inj with - | f <;>
    cases p <;>
    first
      | (cases f <;>
          simp_all [saveState, loadState, restoreBackup, FileData.present])
      | simp_all [saveState, loadState, restoreBackup, FileData.present]

/-- Witness for C1: a concrete store holding `{"data": "old"}` and a write
failure injected while saving `{"data": "new"}`: the result carries a
`StateError` and a subsequent load still returns the pre-save state. -/
theorem saveState_failure_restores_prior_state_witness :
    (saveState ⟨.doc (.obj [("data", .str "old")]), .missing⟩
        (.obj [("data", .str "new")]) "t1" (some .writeNew)).1.errorType
      = some "StateError" ∧
    loadState (saveState ⟨.doc (.obj [("data", .str "old")]), .missing⟩
        (.obj [("data", .str "new")]) "t1" (some .writeNew)).2
      = loadState ⟨.doc (.obj [("data", .str "old")]), .missing⟩ :=
  saveState_failure_restores_prior_state
    ⟨.doc (.obj [("data", .str "old")]), .missing⟩
    (.obj [("data", .str "new")]) "t1" (some .writeNew) rfl rfl

/-- The state document the C2 counterexample saves: a dict with a `'data'`
key — well-formed in the claim's sense — whose `'metadata'` entry is the
number `5`.  `save_state` then raises a `TypeError` at
`{**(state.get('metadata', {})), ...}` and fails. -/
def badMetaState : Json := .obj [("data", .str "payload"), ("metadata", .num 5)]

/-- The file state produced by `_ensure_state_file` (`utils.py`,
lines 126–136): an empty, well-formed document on the primary path. -/
def freshStoreFS : FS :=
  ⟨.doc (.obj [("data", .obj []),
    ("metadata", .obj [("created_at", .str "t0"), ("version", .str "1.0")])]),
   .missing⟩

/-- Counterexample to C2 as stated: `badMetaState` is a dict with a
`'data'` key, yet saving it fails (`success = false`, so
`load(save(S))` does not reproduce `S`: the store still holds the prior
empty payload `{}`, not `"payload"`). -/
theorem save_then_load_roundtrip_cex :
    (saveState freshStoreFS badMetaState "t1" none).1.success = false ∧
    loadState (saveState freshStoreFS badMetaState "t1" none).2
      = ⟨true, some (.obj []), none⟩ := by
  constructor <;> rfl

/-- C2 (amended): for every state document `S` that is a dict with a
`'data'` key and whose `'metadata'` entry, if present, is itself a dict,
`save_state(S)` succeeds and a subsequent `load_state()` returns exactly
`S`'s `'data'` payload. -/
theorem save_then_load_roundtrip (fs : FS) (kvs : List (String × Json))
    (d : Json) (nowIso : String)
    (hdata : findVal kvs "data" = some d)
    (hmeta : findVal kvs "metadata" = none ∨
      ∃ m, findVal kvs "metadata" = some (.obj m)) :
    (saveState fs (.obj kvs) nowIso none).1.success = true ∧
    loadState (saveState fs (.obj kvs) nowIso none).2 = ⟨true, some d, none⟩ := by
  have hdata' : ∀ x, findVal (setEntry kvs "metadata" x) "data" = some d := by
    intro x
    rw [findVal_setEntry_ne kvs "metadata" "data" x (by decide)]
    exact hdata
  have hum : ∃ x, updateMeta (.obj kvs) nowIso
      = some (.obj (setEntry kvs "metadata" x)) := by
    rcases hmeta with hnone | ⟨m, hm⟩
    · exact ⟨.obj [("last_updated", .str nowIso)], by simp [updateMeta, hnone]⟩
    · exact ⟨.obj (setEntry m "last_updated" (.str nowIso)),
        by simp [updateMeta, hm]⟩
  obtain ⟨x, hum⟩ := hum
  obtain ⟨p, b⟩ := fs
  cases p <;>
    simp_all [saveState, loadState, restoreBackup, FileData.present]

/-- Witness for C2 (amended): saving `{"data": 7, "metadata": {}}` over a
fresh store succeeds and loading returns `7`. -/
theorem save_then_load_roundtrip_witness :
    (saveState freshStoreFS
        (.obj [("data", .num 7), ("metadata", .obj [])]) "t1" none).1.success
      = true ∧
    loadState (saveState freshStoreFS
        (.obj [("data", .num 7), ("metadata", .obj [])]) "t1" none).2
      = ⟨true, some (.num 7), none⟩ :=
  save_then_load_roundtrip freshStoreFS
    [("data", .num 7), ("metadata", .obj [])] (.num 7) "t1" rfl
    (Or.inr ⟨[], rfl⟩)

/-! ## Cache (`core/utils.py`, lines 83–116)

`Cache` stores, per key, `{'value': v, 'timestamp': time.time()}`.  Clock
readings are modelled by `ℚ`.  The per-instance mutex serializes the
operations; each operation is modelled as a pure state transition. -/

structure CacheState (K V : Type) where
  entries : List (K × V × ℚ)
  ttl : ℚ

/-- `Cache.get` (`utils.py`, lines 92–103): absent key returns `None`; an
entry with `now - timestamp > ttl` is deleted and reported absent;
otherwise the stored value is returned.  Returns the value and the cache
state after the call. -/
def cacheGet [DecidableEq K] (c : CacheState K V) (k : K) (now : ℚ) :
    Option V × CacheState K V :=
  match findVal c.entries k with
  | none => (none, c)
  | some (v, ts) =>
    if now - ts > c.ttl then (none, { c with entries := eraseEntry c.entries k })
    else (some v, c)

/-- `Cache.set` (`utils.py`, lines 105–111): store the value with the
current timestamp. -/
def cacheSet [DecidableEq K] (c : CacheState K V) (k : K) (v : V) (now : ℚ) :
    CacheState K V :=
  { c with entries := setEntry c.entries k (v, now) }

/-- `Cache.clear` (`utils.py`, lines 113–116). -/
def cacheClear [DecidableEq K] (c : CacheState K V) : CacheState K V :=
  { c with entries := [] }

theorem setEntry_keys_nodup [DecidableEq K] (l : List (K × α)) (k : K) (v : α)
    (h : (l.map Prod.fst).Nodup) :
    ((setEntry l k v).map Prod.fst).Nodup := by
  induction l with
  | nil => simp [setEntry]
  | cons kv rest ih =>
    rw [List.map_cons, List.nodup_cons] at h
    by_cases hk : kv.1 = k
    · rw [show setEntry (kv :: rest) k v = (kv.1, v) :: rest by
        simp [setEntry, hk]]
      rw [List.map_cons, List.nodup_cons]
      exact h
    · rw [show setEntry (kv :: rest) k v = kv :: setEntry rest k v by
        simp [setEntry, hk]]
      rw [List.map_cons, List.nodup_cons]
      have hkeys : (setEntry rest k v).map Prod.fst = rest.map Prod.fst ∨
          (setEntry rest k v).map Prod.fst = rest.map Prod.fst ++ [k] := by
        clear h ih
        induction rest with
        | nil => simp [setEntry]
        | cons x xs ihx =>
          by_cases hx : x.1 = k
          · simp [setEntry, hx]
          · rcases ihx with h1 | h1 <;> simp [setEntry, hx, h1]
      refine ⟨?_, ih h.2⟩
      rcases hkeys with h1 | h1 <;> rw [h1]
      · exact h.1
      · intro hmem
        rcases List.mem_append.mp hmem with hm | hm
        · exact h.1 hm
        · exact hk (List.mem_singleton.mp hm)

/-- C9: for a cache with TTL `T` and unique keys (the Python dict
invariant), after `set k v t₀`: a `get k` at any `now` with
`now - t₀ ≤ T` returns the stored value and leaves the cache unchanged;
a `get k` at any `now` with `now - t₀ > T` reports the key absent and
removes the entry; and `get` on a never-set key returns `None` and changes
nothing. -/
theorem cache_ttl_spec [DecidableEq K] (c : CacheState K V) (k : K) (v : V)
    (t₀ now : ℚ) (hnodup : (c.entries.map Prod.fst).Nodup) :
    (now - t₀ ≤ c.ttl →
      cacheGet (cacheSet c k v t₀) k now = (some v, cacheSet c k v t₀)) ∧
    (now - t₀ > c.ttl →
      (cacheGet (cacheSet c k v t₀) k now).1 = none ∧
      findVal (cacheGet (cacheSet c k v t₀) k now).2.entries k = none) ∧
    (findVal c.entries k = none → cacheGet c k now = (none, c)) := by
  have hset : findVal (cacheSet c k v t₀).entries k = some (v, t₀) :=
    findVal_setEntry_self c.entries k (v, t₀)
  have httl : (cacheSet c k v t₀).ttl = c.ttl := rfl
  refine ⟨?_, ?_, ?_⟩
  · intro hle
    have hcond : ¬ now - t₀ > (cacheSet c k v t₀).ttl := by
      rw [httl]; exact not_lt.mpr hle
    simp only [cacheGet, hset]
    rw [if_neg hcond]
  · intro hgt
    have hcond : now - t₀ > (cacheSet c k v t₀).ttl := by rw [httl]; exact hgt
    have hnodup' : ((cacheSet c k v t₀).entries.map Prod.fst).Nodup :=
      setEntry_keys_nodup c.entries k (v, t₀) hnodup
    constructor
    · simp only [cacheGet, hset]
      rw [if_pos hcond]
    · simp only [cacheGet, hset]
      rw [if_pos hcond]
      exact findVal_eraseEntry_self _ k hnodup'
  · intro habsent
    simp [cacheGet, habsent]

/-- Witness for C9: TTL 10, value set at time 0: present at time 10,
absent (and evicted) at time 11, and a missing key reads `None`. -/
theorem cache_ttl_spec_witness :
    (cacheGet (cacheSet (⟨[], 10⟩ : CacheState String Nat) "k" 5 0) "k" 10
      = (some 5, cacheSet (⟨[], 10⟩ : CacheState String Nat) "k" 5 0)) ∧
    ((cacheGet (cacheSet (⟨[], 10⟩ : CacheState String Nat) "k" 5 0) "k" 11).1
      = none) ∧
    (cacheGet (⟨[], 10⟩ : CacheState String Nat) "other" 3
      = (none, (⟨[], 10⟩ : CacheState String Nat))) := by
  refine ⟨?_, ?_, ?_⟩
  · exact (cache_ttl_spec ⟨[], 10⟩ "k" 5 0 10 (by simp)).1 (by norm_num)
  · exact ((cache_ttl_spec ⟨[], 10⟩ "k" 5 0 11 (by simp)).2.1 (by norm_num)).1
  · exact (cache_ttl_spec ⟨[], 10⟩ "other" 0 0 3 (by simp)).2.2 rfl

/-! ## The retry decorator (`core/utils.py`, lines 207–240)

`retry(max_attempts, delay, backoff)` wraps a function: call it; on an
exception, count the attempt, and if attempts remain, sleep the current
delay and multiply it by the backoff factor; once `max_attempts` attempts
have failed, re-raise the last exception.  A call that *returns* — even a
returned failure value — ends the loop immediately.

The wrapped callable is modelled as `f : Nat → Except E α` (the outcome of
its `n`-th invocation, `0`-based); exceptions are `.error`, returns are
`.ok`. -/

structure RetryOutcome (E α : Type) where
  /-- What the wrapper does in the end: return a value, or re-raise the
  last exception.  `.error none` is the degenerate `max_attempts = 0`
  case, where the code raises `None`. -/
  outcome : Except (Option E) α
  /-- How many times the wrapped callable was invoked. -/
  calls : Nat
  /-- The delays slept between attempts, in order. -/
  sleeps : List ℚ

def retryGo (f : Nat → Except E α) :
    Nat → Nat → ℚ → ℚ → List ℚ → Option E → RetryOutcome E α
  | 0, calls, _, _, sleeps, last => ⟨.error last, calls, sleeps.reverse⟩
  | rem + 1, calls, cur, backoff, sleeps, _ =>
    match f calls with
    | .ok a => ⟨.ok a, calls + 1, sleeps.reverse⟩
    | .error e =>
      if rem > 0 then
        retryGo f rem (calls + 1) (cur * backoff) backoff (cur :: sleeps) (some e)
      else ⟨.error (some e), calls + 1, sleeps.reverse⟩

/-- The `retry` wrapper applied to `f` with the given policy. -/
def retryRun (maxAttempts : Nat) (delay backoff : ℚ)
    (f : Nat → Except E α) : RetryOutcome E α :=
  retryGo f maxAttempts 0 delay backoff [] none

/-! ## `DynamicAgentFactoryLLM._generate_code` (`core/factory.py`, lines 212–276)

The body builds the two-message prompt, consults the per-prompt
`llm_cache`, invokes `self.llm.chat`, and caches the response.  The whole
body sits in a `try/except Exception` whose handler **returns**
`OperationResult(success=False, error=AgentGenerationError(...,
"CodeGenerationError"))` — it does not re-raise.  The method is decorated
with `retry(max_attempts=3, delay=1.0, backoff=2.0)`.

Inputs: `cached` is what `llm_cache.get(cache_key)` returns, and `chat`
is the outcome of `self.llm.chat` (`.error e` models a raised exception
with message `e`). -/

structure GenAttemptOut where
  success : Bool
  code : Option String
  errType : Option String
  errMsg : Option String
  cacheHit : Bool
deriving DecidableEq

/-- One invocation of the undecorated `_generate_code` body.  It always
returns (`.ok`): every exception, including a raising `chat`, is caught
and converted into a failed `OperationResult`. -/
def generateCodeOnce (cached : Option String) (chat : Except String String) :
    Except String GenAttemptOut :=
  .ok (match cached with
    | some c => ⟨true, some c, none, none, true⟩
    | none =>
      match chat with
      | .ok code => ⟨true, some code, none, none, false⟩
      | .error e =>
        ⟨false, none, some "CodeGenerationError",
          some ("Code generation failed: " ++ e), false⟩)

/-- C3 (code evaluated at the claim's failing input): with an empty prompt
cache and an LLM client whose `chat` always raises, the decorated
`_generate_code` makes exactly **one** attempt, sleeps **zero** times, and
ends with a *returned* failed `OperationResult` carrying a
`CodeGenerationError` — not with three attempts and a raised error, as the
claim states.  The retry wrapper never fires because the body's
`except Exception` handler returns the failure instead of re-raising. -/
theorem generate_code_retry_never_fires :
    retryRun 3 1 2 (fun _ => generateCodeOnce none (.error "LLM unavailable"))
      = ⟨.ok ⟨false, none, some "CodeGenerationError",
          some ("Code generation failed: " ++ "LLM unavailable"), false⟩,
         1, []⟩ := by
  rfl

/-! ## CodeValidator (`core/utils.py`, lines 250–293)

The deny-list is a list of regular expressions over the generated source.
The patterns used by the code need only three constructs: literal text,
`\s*` (any run of whitespace) and an optional single character (`s?`);
they are embedded as token lists and matched with full backtracking, and
`re.search` semantics is "matches at some position". -/

inductive RTok where
  | lit : String → RTok
  | wsStar : RTok
  | optChar : Char → RTok
deriving DecidableEq

/-- Python `\s` (ASCII range): space, tab, newline, carriage return,
vertical tab, form feed. -/
def isWsChar (c : Char) : Bool :=
  c = ' ' || c = '\t' || c = '\n' || c = '\r' || c = '\x0b' || c = '\x0c'

/-- Does the token sequence match a prefix of `cs` (with backtracking)? -/
def matchToks : List RTok → List Char → Bool
  | [], _ => true
  | .lit s :: ts, cs =>
    s.toList.isPrefixOf cs && matchToks ts (cs.drop s.toList.length)
  | .wsStar :: ts, cs =>
    (List.range (cs.length + 1)).any fun n =>
      ((cs.take n).all isWsChar) && matchToks ts (cs.drop n)
  | .optChar c :: ts, cs =>
    (match cs with
     | c' :: rest => (c' = c) && matchToks ts rest
     | [] => false)
    || matchToks ts cs

/-- `re.search(pattern, code)`: the pattern matches at some position. -/
def reSearch (ts : List RTok) (code : String) : Bool :=
  let cs := code.toList
  (List.range (cs.length + 1)).any fun i => matchToks ts (cs.drop i)

structure ForbiddenPattern where
  toks : List RTok
  pat : String
  descr : String
deriving DecidableEq

/-- `CodeValidator.forbidden_patterns` (`utils.py`, lines 254–264), in
source order; `pat` is the regex source stored in the error's details and
`descr` its human description. -/
def forbiddenPatterns : List ForbiddenPattern :=
  [⟨[.lit "os", .wsStar, .lit ".", .wsStar, .lit "system"],
     "os\\s*\\.\\s*system", "System command execution"⟩,
   ⟨[.lit "subprocess"], "subprocess", "Subprocess execution"⟩,
   ⟨[.lit "eval", .wsStar, .lit "("], "eval\\s*\\(", "Code evaluation"⟩,
   ⟨[.lit "exec", .wsStar, .lit "("], "exec\\s*\\(", "Code execution"⟩,
   ⟨[.lit "__import__"], "__import__", "Dynamic imports"⟩,
   ⟨[.lit "open", .wsStar, .lit "("], "open\\s*\\(", "File operations"⟩,
   ⟨[.lit "socket."], "socket\\.", "Network operations"⟩,
   ⟨[.lit "request", .optChar 's', .lit "."], "requests?\\.", "HTTP requests"⟩,
   ⟨[.lit "urllib"], "urllib", "URL operations"⟩]

/-- The fields of the `OperationResult` returned by
`CodeValidator.validate`: the error, when present, is a `ValidationError`
with message `"Security violation: <description>"` and the offending
regex source in its details. -/
structure CodeValidationOut where
  success : Bool
  errType : Option String
  errMsg : Option String
  errPattern : Option String
deriving DecidableEq

/-- `CodeValidator.validate` (`utils.py`, lines 266–293): scan the
deny-list in order and fail on the first matching pattern. -/
def codeValidatorValidate (code : String) : CodeValidationOut :=
  match forbiddenPatterns.find? (fun p => reSearch p.toks code) with
  | some p =>
    ⟨false, some "ValidationError", some ("Security violation: " ++ p.descr),
      some p.pat⟩
  | none => ⟨true, none, none, none⟩

/-- C7: a code string fails `CodeValidator.validate` exactly when some
deny-list pattern matches it (regardless of surrounding code); a failure
carries a `ValidationError` naming an offending (matching) pattern and its
description; and code matching no denied pattern passes. -/
theorem code_validator_spec (code : String) :
    ((codeValidatorValidate code).success = false ↔
      ∃ p ∈ forbiddenPatterns, reSearch p.toks code = true) ∧
    (∀ pt, (codeValidatorValidate code).errPattern = some pt →
      ∃ p ∈ forbiddenPatterns, p.pat = pt ∧ reSearch p.toks code = true ∧
        (codeValidatorValidate code).errType = some "ValidationError" ∧
        (codeValidatorValidate code).errMsg
          = some ("Security violation: " ++ p.descr)) ∧
    ((∀ p ∈ forbiddenPatterns, reSearch p.toks code = false) →
      codeValidatorValidate code = ⟨true, none, none, none⟩) := by
  cases hf : forbiddenPatterns.find? (fun p => reSearch p.toks code) with
  | none =>
    have hall := List.find?_eq_none.mp hf
    refine ⟨?_, ?_, ?_⟩
    · simp only [codeValidatorValidate, hf]
      constructor
      · intro h; cases h
      · rintro ⟨p, hp, hsearch⟩
        exact absurd hsearch (by simpa using hall p hp)
    · intro pt hpt
      simp [codeValidatorValidate, hf] at hpt
    · intro _
      simp [codeValidatorValidate, hf]
  | some p =>
    have hmem : p ∈ forbiddenPatterns := List.mem_of_find?_eq_some hf
    have hsearch : reSearch p.toks code = true := by
      simpa using List.find?_some hf
    refine ⟨?_, ?_, ?_⟩
    · constructor
      · intro _; exact ⟨p, hmem, hsearch⟩
      · intro _; simp [codeValidatorValidate, hf]
    · intro pt hpt
      have hpt' : p.pat = pt := by
        simpa [codeValidatorValidate, hf] using hpt
      refine ⟨p, hmem, hpt', hsearch, ?_, ?_⟩ <;>
        simp [codeValidatorValidate, hf]
    · intro hnone
      exact absurd hsearch (by simp [hnone p hmem])

/-- Witness for C7: `"os . system(x)"` is rejected (the `os\s*\.\s*system`
pattern matches across whitespace), while plain `"x = 1"` passes. -/
theorem code_validator_spec_witness :
    (codeValidatorValidate "os . system(x)").success = false ∧
    codeValidatorValidate "x = 1" = ⟨true, none, none, none⟩ :=
  ⟨(code_validator_spec "os . system(x)").1.mpr
      ⟨⟨[.lit "os", .wsStar, .lit ".", .wsStar, .lit "system"],
         "os\\s*\\.\\s*system", "System command execution"⟩,
       by decide, by decide⟩,
   (code_validator_spec "x = 1").2.2 (by decide)⟩

/-! ## Keyword detection (`core/keyword_manager.py`, lines 227–261)

`detect_keyword` lowercases the input, extracts `\w+` word tokens, scores
every known keyword by the size of the token-set intersection, and returns
Python's `max(matches, key=...)` of the positively scoring keywords —
which keeps the *first* element attaining the maximum. -/

/-- Python `\w` (ASCII range): letters, digits, underscore. -/
def isWordChar (c : Char) : Bool :=
  ('a' ≤ c && c ≤ 'z') || ('A' ≤ c && c ≤ 'Z') || ('0' ≤ c && c ≤ '9') || c = '_'

def wordTokensGo : List Char → List Char → List String
  | [], acc => if acc.isEmpty then [] else [String.mk acc.reverse]
  | c :: cs, acc =>
    if isWordChar c then wordTokensGo cs (c :: acc)
    else if acc.isEmpty then wordTokensGo cs []
    else String.mk acc.reverse :: wordTokensGo cs []

/-- `re.findall(r'\w+', text)`: the maximal word-character runs. -/
def wordTokens (text : String) : List String := wordTokensGo text.toList []

/-- `text.lower()`. -/
def lowerStr (s : String) : String := String.mk (s.toList.map Char.toLower)

/-- `len(input_words & keyword_words)`: the number of distinct word
tokens of the lowercased input that also occur among the lowercased
keyword's word tokens. -/
def overlapScore (inputText kw : String) : Nat :=
  ((wordTokens (lowerStr inputText)).dedup.filter
    (fun t => t ∈ wordTokens (lowerStr kw))).length

/-- One step of Python `max(..., key=lambda x: x[1])`: the new element
replaces the current best only when its key is strictly larger, so the
first maximal element wins. -/
def pyMaxStep (b y : String × Nat) : String × Nat := if y.2 > b.2 then y else b

/-- `KeywordManager.detect_keyword`: collect `(keyword, overlap)` for every
keyword with positive overlap, return the first maximal one, or `None`
when nothing scores. -/
def detectKeyword (keywords : List String) (inputText : String) : Option String :=
  match keywords.filterMap (fun k =>
    if overlapScore inputText k > 0 then some (k, overlapScore inputText k)
    else none) with
  | [] => none
  | x :: xs => some ((xs.foldl pyMaxStep x).1)

theorem detectKeyword_eq_none (keywords : List String) (inputText : String)
    (h : keywords.filterMap (fun k =>
      if overlapScore inputText k > 0 then some (k, overlapScore inputText k)
      else none) = []) : detectKeyword keywords inputText = none := by
  unfold detectKeyword
  rw [h]

theorem detectKeyword_eq_some (keywords : List String) (inputText : String)
    (x : String × Nat) (xs : List (String × Nat))
    (h : keywords.filterMap (fun k =>
      if overlapScore inputText k > 0 then some (k, overlapScore inputText k)
      else none) = x :: xs) :
    detectKeyword keywords inputText = some ((xs.foldl pyMaxStep x).1) := by
  unfold detectKeyword
  rw [h]

theorem pyFold_seed_le (xs : List (String × Nat)) :
    ∀ x : String × Nat, x.2 ≤ (xs.foldl pyMaxStep x).2 := by
  induction xs with
  | nil => intro x; exact le_refl _
  | cons y ys ih =>
    intro x
    have hstep : x.2 ≤ (pyMaxStep x y).2 := by
      unfold pyMaxStep
      split
      · omega
      · exact le_refl _
    exact le_trans hstep (ih (pyMaxStep x y))

/-- The Python `max` fold splits its input around its result: everything
before the result scores strictly less, everything after scores at
most as much. -/
theorem pyFold_spec (xs : List (String × Nat)) :
    ∀ x : String × Nat, ∃ pre post,
      x :: xs = pre ++ (xs.foldl pyMaxStep x) :: post ∧
      (∀ y ∈ pre, y.2 < (xs.foldl pyMaxStep x).2) ∧
      (∀ y ∈ post, y.2 ≤ (xs.foldl pyMaxStep x).2) := by
  induction xs with
  | nil =>
    intro x
    exact ⟨[], [], rfl, by simp, by simp⟩
  | cons y ys ih =>
    intro x
    by_cases hy : y.2 > x.2
    · have hstep : pyMaxStep x y = y := by simp [pyMaxStep, hy]
      have hfold : (y :: ys).foldl pyMaxStep x = ys.foldl pyMaxStep y := by
        simp [List.foldl_cons, hstep]
      obtain ⟨pre, post, hdecomp, hpre, hpost⟩ := ih y
      refine ⟨x :: pre, post, ?_, ?_, ?_⟩
      · rw [hfold, List.cons_append, ← hdecomp]
      · intro z hz
        rcases List.mem_cons.mp hz with hz | hz
        · subst hz
          rw [hfold]
          exact lt_of_lt_of_le hy (pyFold_seed_le ys y)
        · rw [hfold]; exact hpre z hz
      · intro z hz; rw [hfold]; exact hpost z hz
    · have hstep : pyMaxStep x y = x := by simp [pyMaxStep, hy]
      have hfold : (y :: ys).foldl pyMaxStep x = ys.foldl pyMaxStep x := by
        simp [List.foldl_cons, hstep]
      obtain ⟨pre, post, hdecomp, hpre, hpost⟩ := ih x
      cases pre with
      | nil =>
        simp only [List.nil_append] at hdecomp
        have hx : ys.foldl pyMaxStep x = x := (List.cons.injEq _ _ _ _ ▸ hdecomp).1.symm
        have hpost' : post = ys := (List.cons.injEq _ _ _ _ ▸ hdecomp).2.symm
        refine ⟨[], y :: ys, ?_, by simp, ?_⟩
        · rw [hfold, hx, List.nil_append]
        · intro z hz
          rw [hfold, hx]
          rcases List.mem_cons.mp hz with hz | hz
          · subst hz; omega
          · rw [← hpost'] at hz
            have := hpost z hz
            rwa [hx] at this
      | cons q pre' =>
        have hq : q = x := ((List.cons.injEq _ _ _ _).mp hdecomp).1.symm
        have hys : ys = pre' ++ ys.foldl pyMaxStep x :: post :=
          ((List.cons.injEq _ _ _ _).mp hdecomp).2
        have hxlt : x.2 < (ys.foldl pyMaxStep x).2 := by
          have := hpre q (by simp)
          rwa [hq] at this
        refine ⟨x :: y :: pre', post, ?_, ?_, ?_⟩
        · rw [hfold]
          simp only [List.cons_append]
          rw [← hys]
        · intro z hz
          rw [hfold]
          rcases List.mem_cons.mp hz with hz | hz
          · subst hz; exact hxlt
          rcases List.mem_cons.mp hz with hz | hz
          · subst hz; omega
          · exact hpre z (by simp [hz])
        · intro z hz; rw [hfold]; exact hpost z hz

/-- Splitting a `filterMap` around one output element splits the input
list accordingly. -/
theorem filterMap_eq_append_cons {α β : Type} {f : α → Option β} :
    ∀ (l : List α) (pre : List β) (m : β) (post : List β),
      l.filterMap f = pre ++ m :: post →
      ∃ l₁ a l₂, l = l₁ ++ a :: l₂ ∧ f a = some m ∧
        l₁.filterMap f = pre ∧ l₂.filterMap f = post := by
  intro l
  induction l with
  | nil =>
    intro pre m post h
    simp at h
  | cons x xs ih =>
    intro pre m post h
    cases hfx : f x with
    | none =>
      rw [List.filterMap_cons_none hfx] at h
      obtain ⟨l₁, a, l₂, hl, ha, h₁, h₂⟩ := ih pre m post h
      exact ⟨x :: l₁, a, l₂, by rw [hl, List.cons_append], ha,
        by rw [List.filterMap_cons_none hfx, h₁], h₂⟩
    | some b =>
      rw [List.filterMap_cons_some hfx] at h
      cases pre with
      | nil =>
        simp only [List.nil_append] at h
        have hb : b = m := ((List.cons.injEq _ _ _ _).mp h).1
        have hrest : xs.filterMap f = post := ((List.cons.injEq _ _ _ _).mp h).2
        exact ⟨[], x, xs, rfl, hb ▸ hfx, rfl, hrest⟩
      | cons p pre' =>
        have hb : b = p := ((List.cons.injEq _ _ _ _).mp h).1
        have hrest : xs.filterMap f = pre' ++ m :: post :=
          ((List.cons.injEq _ _ _ _).mp h).2
        obtain ⟨l₁, a, l₂, hl, ha, h₁, h₂⟩ := ih pre' m post hrest
        exact ⟨x :: l₁, a, l₂, by rw [hl, List.cons_append], ha,
          by rw [List.filterMap_cons_some hfx, h₁, hb], h₂⟩

/-- C8: `detect_keyword` returns `None` exactly when no known keyword has
nonzero token overlap with the input; and a returned keyword has positive
overlap, maximal among all keywords, with every earlier catalog entry
scoring strictly less (first-seen wins ties). -/
theorem detect_keyword_spec (keywords : List String) (inputText : String) :
    (detectKeyword keywords inputText = none ↔
      ∀ k ∈ keywords, overlapScore inputText k = 0) ∧
    (∀ k, detectKeyword keywords inputText = some k →
      ∃ pre post, keywords = pre ++ k :: post ∧
        0 < overlapScore inputText k ∧
        (∀ k' ∈ pre, overlapScore inputText k' < overlapScore inputText k) ∧
        (∀ k' ∈ post, overlapScore inputText k' ≤ overlapScore inputText k)) := by
  constructor
  · cases hm : keywords.filterMap (fun k =>
        if overlapScore inputText k > 0 then some (k, overlapScore inputText k)
        else none) with
    | nil =>
      rw [detectKeyword_eq_none keywords inputText hm]
      constructor
      · intro _ k hk
        have := (List.filterMap_eq_nil_iff.mp hm) k hk
        by_contra hne
        simp [Nat.pos_of_ne_zero hne] at this
      · intro _; rfl
    | cons x xs =>
      rw [detectKeyword_eq_some keywords inputText x xs hm]
      constructor
      · intro h; cases h
      · intro hall
        exfalso
        have hx : x ∈ keywords.filterMap (fun k =>
            if overlapScore inputText k > 0 then some (k, overlapScore inputText k)
            else none) := by rw [hm]; simp
        obtain ⟨a, ha, hfa⟩ := List.mem_filterMap.mp hx
        rw [hall a ha] at hfa
        simp at hfa
  · intro k hk
    revert hk
    cases hm : keywords.filterMap (fun k =>
        if overlapScore inputText k > 0 then some (k, overlapScore inputText k)
        else none) with
    | nil =>
      rw [detectKeyword_eq_none keywords inputText hm]
      intro hk; cases hk
    | cons x xs =>
      rw [detectKeyword_eq_some keywords inputText x xs hm]
      intro hk
      simp only [Option.some.injEq] at hk
      obtain ⟨pre, post, hdecomp, hpre, hpost⟩ := pyFold_spec xs x
      rw [← hm] at hdecomp
      obtain ⟨l₁, a, l₂, hl, ha, h₁, h₂⟩ :=
        filterMap_eq_append_cons keywords pre _ post hdecomp
      have hov : 0 < overlapScore inputText a ∧
          (xs.foldl pyMaxStep x) = (a, overlapScore inputText a) := by
        by_cases hpos : overlapScore inputText a > 0
        · rw [if_pos hpos] at ha
          exact ⟨hpos, (Option.some.injEq _ _ ▸ ha).symm⟩
        · rw [if_neg hpos] at ha
          cases ha
      have hka : k = a := by rw [← hk, hov.2]
      subst hka
      refine ⟨l₁, l₂, hl, hov.1, ?_, ?_⟩
      · intro k' hk'
        by_cases hpos : overlapScore inputText k' > 0
        · have hmem : (k', overlapScore inputText k') ∈ l₁.filterMap fun k =>
              if overlapScore inputText k > 0
              then some (k, overlapScore inputText k) else none := by
            exact List.mem_filterMap.mpr ⟨k', hk', by rw [if_pos hpos]⟩
          rw [h₁] at hmem
          have := hpre _ hmem
          rw [hov.2] at this
          exact this
        · have h0 : overlapScore inputText k' = 0 := by omega
          rw [h0]; exact hov.1
      · intro k' hk'
        by_cases hpos : overlapScore inputText k' > 0
        · have hmem : (k', overlapScore inputText k') ∈ l₂.filterMap fun k =>
              if overlapScore inputText k > 0
              then some (k, overlapScore inputText k) else none := by
            exact List.mem_filterMap.mpr ⟨k', hk', by rw [if_pos hpos]⟩
          rw [h₂] at hmem
          have := hpost _ hmem
          rw [hov.2] at this
          exact this
        · omega

/-- Witness for C8: against the catalog fragment `["react", "tailwind"]`,
the input `"building with React and Tailwind"` detects `"react"` (both
score 1; the first entry wins the tie), and an input with zero overlap
detects nothing. -/
theorem detect_keyword_spec_witness :
    (∃ pre post, ["react", "tailwind"] = pre ++ "react" :: post ∧
      0 < overlapScore "building with React and Tailwind" "react" ∧
      (∀ k' ∈ pre, overlapScore "building with React and Tailwind" k' <
        overlapScore "building with React and Tailwind" "react") ∧
      (∀ k' ∈ post, overlapScore "building with React and Tailwind" k' ≤
        overlapScore "building with React and Tailwind" "react")) ∧
    detectKeyword ["react", "tailwind"] "fresh mango smoothie" = none :=
  ⟨(detect_keyword_spec ["react", "tailwind"]
      "building with React and Tailwind").2 "react" (by decide),
   (detect_keyword_spec ["react", "tailwind"] "fresh mango smoothie").1.mpr
     (by decide)⟩

/-! ## KeywordManager agent bookkeeping (`core/keyword_manager.py`)

`AgentInfo` (lines 23–52) and the mutating operations `get_agent`
(lines 263–300) and `update_agent_status` (lines 302–330).  Timestamps
(`datetime.now()`) are modelled as `Nat` tick values supplied by the
caller.  `_save_current_state` (lines 148–155) serializes the full
in-memory table through the `StateManager`; each operation reports the
list of states it persisted (`saves`), in order. -/

structure AgentInfo where
  keyword : String
  status : String
  createdAt : Nat
  lastAccessed : Nat
  metadata : Option (List (String × Json))
  validationResults : Option (List (String × Bool))
  errorHistory : Option (List (Nat × String))

structure KMState where
  keywords : List (String × String)
  agents : List (String × AgentInfo)
  lastUpdated : Nat

/-- Python truthiness of an optional list/dict: `None` and empty are
falsy. -/
def optTruthyList : Option (List α) → Bool
  | none => false
  | some l => !l.isEmpty

/-- Python truthiness of an optional string: `None` and `""` are falsy. -/
def optTruthyStr : Option String → Bool
  | none => false
  | some s => !s.isEmpty

structure KMCallOut where
  state : KMState
  saves : List KMState
  message : String

/-- `KeywordManager.get_agent` (lines 263–300): reject unknown keywords;
for an existing agent update `last_accessed` and merge the supplied
metadata over the stored one (only when the supplied dict is truthy);
otherwise create a fresh `AgentInfo` with status `"Active"`; both mutating
branches persist the full table before returning. -/
def getAgent (st : KMState) (now : Nat) (kw : String)
    (md : Option (List (String × Json))) : KMCallOut :=
  if (findVal st.keywords kw).isNone then
    ⟨st, [], "Error: No keyword '" ++ kw ++ "' found."⟩
  else
    match findVal st.agents kw with
    | some a =>
      let a' : AgentInfo := { a with
        lastAccessed := now
        metadata := if optTruthyList md then
            some (dictMerge (a.metadata.getD []) (md.getD []))
          else a.metadata }
      let st' : KMState := { st with agents := setEntry st.agents kw a' }
      ⟨st', [st'], "Agent for '" ++ kw ++ "' retrieved and indexed."⟩
    | none =>
      let st' : KMState := { st with agents := st.agents ++
        [(kw, ⟨kw, "Active", now, now, md, some [], some []⟩)] }
      ⟨st', [st'], "Agent for '" ++ kw ++ "' created and indexed."⟩

/-- `KeywordManager.update_agent_status` (lines 302–330): only an existing
agent entry is touched — its status and `last_accessed` are updated, a
truthy error message is appended to the error history (created first when
the stored history is falsy) and the table is persisted.  For a keyword
with no agent entry the body is skipped entirely. -/
def updateAgentStatus (st : KMState) (now : Nat) (kw status : String)
    (err : Option String) : KMState × List KMState :=
  match findVal st.agents kw with
  | none => (st, [])
  | some a =>
    let hist : Option (List (Nat × String)) :=
      if optTruthyStr err then
        some ((if optTruthyList a.errorHistory then a.errorHistory.getD []
          else []) ++ [(now, err.getD "")])
      else a.errorHistory
    let a' : AgentInfo := { a with
      status := status
      lastAccessed := now
      errorHistory := hist }
    let st' : KMState := { st with agents := setEntry st.agents kw a' }
    (st', [st'])

/-- C10: for a keyword with no `AgentInfo` entry, `update_agent_status` is
a silent no-op: the state is returned unchanged, nothing is persisted, and
no error is reported. -/
theorem update_agent_status_unknown_noop (st : KMState) (now : Nat)
    (kw status : String) (err : Option String)
    (h : findVal st.agents kw = none) :
    updateAgentStatus st now kw status err = (st, []) := by
  simp [updateAgentStatus, h]

/-- Witness for C10: a store that knows the keyword `"python"` but has no
agent entry for `"ghost"`: updating `"ghost"` changes nothing and saves
nothing. -/
theorem update_agent_status_unknown_noop_witness :
    updateAgentStatus
        ⟨[("python", "desc")],
         [("python", ⟨"python", "Active", 0, 0, none, some [], some []⟩)], 0⟩
        5 "ghost" "error" (some "boom")
      = (⟨[("python", "desc")],
          [("python", ⟨"python", "Active", 0, 0, none, some [], some []⟩)], 0⟩,
         []) :=
  update_agent_status_unknown_noop
    ⟨[("python", "desc")],
     [("python", ⟨"python", "Active", 0, 0, none, some [], some []⟩)], 0⟩
    5 "ghost" "error" (some "boom") rfl

/-- C6: `get_agent` on a known keyword.  Every call persists exactly the
resulting table and leaves the keyword table unchanged.  A first call
creates an `AgentInfo` with status `"Active"` and reports `created`; a
call for an existing agent reports `retrieved` and produces a record that
keeps the prior status, creation time, validation results and error
history, sets `last_accessed` to now, and merges the supplied metadata
over the stored one — a key bound in the supplied metadata wins, every
other stored key keeps its value — while all other agents are untouched.
(The supplied metadata is a Python dict, so its keys are assumed
duplicate-free.) -/
theorem get_agent_spec (st : KMState) (now : Nat) (kw : String)
    (md : Option (List (String × Json)))
    (hkw : (findVal st.keywords kw).isSome)
    (hmd : ((md.getD []).map Prod.fst).Nodup) :
    ((getAgent st now kw md).saves = [(getAgent st now kw md).state] ∧
      (getAgent st now kw md).state.keywords = st.keywords) ∧
    (findVal st.agents kw = none →
      (getAgent st now kw md).message
        = "Agent for '" ++ kw ++ "' created and indexed." ∧
      (getAgent st now kw md).state.agents
        = st.agents ++ [(kw, ⟨kw, "Active", now, now, md, some [], some []⟩)]) ∧
    (∀ a, findVal st.agents kw = some a →
      (getAgent st now kw md).message
        = "Agent for '" ++ kw ++ "' retrieved and indexed." ∧
      (∀ k', k' ≠ kw →
        findVal (getAgent st now kw md).state.agents k' = findVal st.agents k') ∧
      (∀ a', findVal (getAgent st now kw md).state.agents kw = some a' →
        a'.status = a.status ∧ a'.createdAt = a.createdAt ∧
        a'.validationResults = a.validationResults ∧
        a'.errorHistory = a.errorHistory ∧ a'.lastAccessed = now ∧
        (∀ key, findVal (a'.metadata.getD []) key
          = if optTruthyList md then
              ((findVal (md.getD []) key).or (findVal (a.metadata.getD []) key))
            else findVal (a.metadata.getD []) key))) := by
  have hkw' : ¬ (findVal st.keywords kw).isNone = true := by
    rw [Option.isNone_iff_eq_none]
    intro h
    rw [h] at hkw
    cases hkw
  cases ha : findVal st.agents kw with
  | none =>
    refine ⟨⟨?_, ?_⟩, fun _ => ⟨?_, ?_⟩, ?_⟩ <;>
      simp [getAgent, hkw', ha]
  | some a =>
    refine ⟨⟨?_, ?_⟩, ?_, ?_⟩
    · simp [getAgent, hkw', ha]
    · simp [getAgent, hkw', ha]
    · intro hnone
      cases hnone
    · intro b hb
      have hab : a = b := (Option.some.injEq _ _).mp hb
      subst hab
      refine ⟨by simp [getAgent, hkw', ha], ?_, ?_⟩
      · intro k' hk'
        have hred : (getAgent st now kw md).state.agents
            = setEntry st.agents kw { a with
                lastAccessed := now
                metadata := if optTruthyList md then
                    some (dictMerge (a.metadata.getD []) (md.getD []))
                  else a.metadata } := by
          simp [getAgent, hkw', ha]
        rw [hred]
        exact findVal_setEntry_ne st.agents kw k' _ hk'
      · intro a' ha'
        have hred : (getAgent st now kw md).state.agents
            = setEntry st.agents kw { a with
                lastAccessed := now
                metadata := if optTruthyList md then
                    some (dictMerge (a.metadata.getD []) (md.getD []))
                  else a.metadata } := by
          simp [getAgent, hkw', ha]
        rw [hred, findVal_setEntry_self] at ha'
        injection ha' with ha'
        subst ha'
        refine ⟨rfl, rfl, rfl, rfl, rfl, ?_⟩
        intro key
        by_cases hmdt : optTruthyList md
        · simp only [hmdt, if_true, Option.getD_some]
          rw [findVal_dictMerge, findVal_reverse_of_nodup _ hmd]
        · simp [hmdt]

/-- Witness for C6: a known keyword with an existing agent carrying
metadata `{"a": 1, "b": 2}`, merged with supplied metadata
`{"b": 3, "c": 4}`: the call saves the new table, reports `retrieved`,
and the merged metadata reads `a = 1`, `b = 3`, `c = 4`. -/
theorem get_agent_spec_witness :
    ((getAgent
        ⟨[("python", "desc")],
         [("python", ⟨"python", "Active", 0, 0,
            some [("a", .num 1), ("b", .num 2)], some [], some []⟩)], 0⟩
        7 "python" (some [("b", .num 3), ("c", .num 4)])).message
      = "Agent for '" ++ "python" ++ "' retrieved and indexed.") ∧
    ((getAgent
        ⟨[("python", "desc")],
         [("python", ⟨"python", "Active", 0, 0,
            some [("a", .num 1), ("b", .num 2)], some [], some []⟩)], 0⟩
        7 "python" (some [("b", .num 3), ("c", .num 4)])).saves
      = [(getAgent
        ⟨[("python", "desc")],
         [("python", ⟨"python", "Active", 0, 0,
            some [("a", .num 1), ("b", .num 2)], some [], some []⟩)], 0⟩
        7 "python" (some [("b", .num 3), ("c", .num 4)])).state]) := by
  have h := get_agent_spec
    ⟨[("python", "desc")],
     [("python", ⟨"python", "Active", 0, 0,
        some [("a", .num 1), ("b", .num 2)], some [], some []⟩)], 0⟩
    7 "python" (some [("b", .num 3), ("c", .num 4)]) rfl (by decide)
  exact ⟨(h.2.2 _ rfl).1, h.1.1⟩

/-! ## `DynamicAgentFactoryLLM.generate_agent` (`core/factory.py`, lines 329–400)

The trigger catalog `TRIGGER_MAP` (`core/triggers.py`), restricted to the
fields the factory reads; descriptions and prompt templates are carried
only into the (unreached) generation path and are omitted. -/

structure TriggerInfo where
  className : String
  requiredImports : List String
deriving DecidableEq

/-- The keys and class names of `TRIGGER_MAP` (`triggers.py`,
lines 22–297), in source order. -/
def TRIGGER_MAP : List (String × TriggerInfo) :=
  [("python", ⟨"PythonAnalyzer", ["ast", "pylint"]⟩),
   ("react", ⟨"ReactAnalyzer", ["esprima", "eslint"]⟩),
   ("node", ⟨"NodeAnalyzer", ["acorn", "eslint"]⟩),
   ("sql", ⟨"SQLAnalyzer", ["sqlparse", "sqlalchemy"]⟩),
   ("ci/cd", ⟨"CICDAnalyzer", ["yaml", "requests"]⟩),
   ("github", ⟨"GitHubAnalyzer", ["requests", "github"]⟩),
   ("gitlab", ⟨"GitLabAnalyzer", ["requests", "gitlab"]⟩),
   ("pull_requests", ⟨"PullRequestAnalyzer", ["requests", "github", "gitlab"]⟩),
   ("deployments", ⟨"DeploymentAnalyzer", ["yaml", "requests"]⟩),
   ("tailwind", ⟨"TailwindAnalyzer", ["cssutils", "tailwindcss"]⟩)]

/-- `GenerationResult` (`factory.py`, lines 84–92).  Loaded agent classes
are identified by name.  `error_type`, when the code records one, lives
inside `metadata` (`factory.py`, lines 394–399). -/
structure GenResult where
  agentClass : Option String
  status : String
  error : Option String
  validationResults : Option (List (String × Bool))
  metadata : Option (List (String × String))
deriving DecidableEq

/-- The `error_type` recorded in a `GenerationResult`, when any. -/
def genResultErrorType (r : GenResult) : Option String :=
  findVal (r.metadata.getD []) "error_type"

/-- `generate_agent` (`factory.py`, lines 329–400) with the number of
`llm.chat` invocations it performs.  An unknown technology returns an
error result before any generation.  For a known technology the code
binds `code_str` to the `OperationResult` returned by the retry-wrapped
`_generate_code` and then calls `self.validator.validate_security(...)` —
a method `AgentValidator` does not define — so an `AttributeError`
(not an `AgentGenerationError`, hence uncaught by the `except` clause)
escapes, modelled as `.error`.  `cached` is the `llm_cache` lookup
outcome and `chat` the LLM call outcome, as in `generateCodeOnce`. -/
def generateAgent (tech : String) (cached : Option String)
    (chat : Except String String) : Except String GenResult × Nat :=
  match findVal TRIGGER_MAP tech with
  | none =>
    (.ok ⟨none, "error", some ("Unknown technology: " ++ tech), none, none⟩, 0)
  | some _trig =>
    let r := retryRun 3 1 2 (fun _ => generateCodeOnce cached chat)
    (.error "'AgentValidator' object has no attribute 'validate_security'",
     if cached.isSome then 0 else r.calls)

/-- C4 (amended): for a keyword absent from `TRIGGER_MAP`, `generate_agent`
returns `status = "error"` with message `"Unknown technology: <tech>"`,
performs zero LLM chat calls — and populates no `error_type` at all
(`metadata = none`). -/
theorem generate_agent_unknown_tech (tech : String) (cached : Option String)
    (chat : Except String String) (h : findVal TRIGGER_MAP tech = none) :
    generateAgent tech cached chat
      = (.ok ⟨none, "error", some ("Unknown technology: " ++ tech), none, none⟩,
         0) := by
  simp [generateAgent, h]

/-- Counterexample to C4 as stated: for `"cobol-mainframe-9000"` the
result is an error with zero chat calls, but its `error_type` is `none`,
not `"UnknownTechnology"` (that string appears nowhere in the code). -/
theorem generate_agent_unknown_tech_cex :
    (generateAgent "cobol-mainframe-9000" none (.error "llm down")).1
      = .ok ⟨none, "error", some "Unknown technology: cobol-mainframe-9000",
          none, none⟩ ∧
    (generateAgent "cobol-mainframe-9000" none (.error "llm down")).2 = 0 ∧
    ((generateAgent "cobol-mainframe-9000" none (.error "llm down")).1.map
        genResultErrorType) = .ok none := by
  refine ⟨rfl, rfl, rfl⟩

/-- Witness for C4 (amended): the concrete unknown keyword
`"cobol-mainframe-9000"`. -/
theorem generate_agent_unknown_tech_witness :
    generateAgent "cobol-mainframe-9000" none (.ok "class X: pass")
      = (.ok ⟨none, "error",
          some ("Unknown technology: " ++ "cobol-mainframe-9000"), none, none⟩,
         0) :=
  generate_agent_unknown_tech "cobol-mainframe-9000" none (.ok "class X: pass")
    rfl

/-! ## `DynamicAgentFactory.run` (`core/dynamic_agent_factory.py`, lines 188–324)

The orchestrator.  Its input dict is modelled by `RunInput`
(`technology_keyword` present / a string / other), the `result_cache.get`
outcome is passed in directly (`cachedResult`), and the value
`llm_factory.run` *would* return parameterizes the continuation that sits
after the `start_time` reference.  The output records, besides the
returned result, every `result_cache.set` call (there are none in the
source) and every call into the `KeywordManager`. -/

inductive PyVal where
  | pstr : String → PyVal
  | pother : PyVal
deriving DecidableEq

structure RunInput where
  techKeyword : Option PyVal

structure RunOut where
  agentClass : Option String
  status : String
  error : Option String
deriving DecidableEq

inductive KMEvent where
  | getAgentCall : String → KMEvent
  | updateStatusCall : String → String → Option String → KMEvent
deriving DecidableEq

structure LLMFactoryOut where
  agentClass : Option String
  genError : Option String
  validationResults : Option (List (String × Bool))

/-- Python `str.strip()`: remove leading and trailing whitespace. -/
def stripStr (s : String) : String :=
  String.mk (((s.toList.dropWhile isWsChar).reverse.dropWhile isWsChar).reverse)

/-- Line 253 of `dynamic_agent_factory.py` evaluates
`start_time.isoformat()`, but no `start_time` is ever bound in `run` (nor
is one a module global), so the expression raises a `NameError` that the
`except Exception` handler at line 311 turns into an error result. -/
def startTimeVar : Except String String :=
  .error "name 'start_time' is not defined"

/-- `DynamicAgentFactory.run`: validate the input, consult the result
cache, detect the keyword, then build the metadata for `get_agent` —
which evaluates the unbound `start_time` and raises.  The continuation
after that point (lines 251–309: the `get_agent` call, the
`llm_factory.run` call, the `"active"`/`"error"` status update) is kept,
parameterized by `llmOut`, but is unreachable. -/
def dafRun (d : RunInput) (cachedResult : Option RunOut)
    (kmKeywords : List String) (llmOut : LLMFactoryOut) :
    RunOut × List RunOut × List KMEvent :=
  match d.techKeyword with
  | none =>
    (⟨none, "error", some "Missing required input: technology_keyword"⟩, [], [])
  | some .pother =>
    (⟨none, "error", some "technology_keyword must be a string"⟩, [], [])
  | some (.pstr s) =>
    if (stripStr s).isEmpty then
      (⟨none, "error", some "technology_keyword cannot be empty"⟩, [], [])
    else
      match cachedResult with
      | some r => (r, [], [])
      | none =>
        match detectKeyword kmKeywords (lowerStr s) with
        | none =>
          (⟨none, "error", some ("Unknown technology: " ++ lowerStr s)⟩, [], [])
        | some k =>
          match startTimeVar with
          | .error e => (⟨none, "error", some ("Unexpected error: " ++ e)⟩, [], [])
          | .ok _iso =>
            let status := if llmOut.agentClass.isSome then "active" else "error"
            (⟨llmOut.agentClass, status, llmOut.genError⟩, [],
             [.getAgentCall k, .updateStatusCall k status llmOut.genError])

/-- C5 (code evaluated at the claim's scenario): `run` never writes the
result cache and never reaches the `KeywordManager` (the `get_agent`
argument list raises `NameError` first); with an empty result cache it
always returns `agent_class = None` with `status = "error"`, so a
successful generation — the claim's premise — is unreachable; and on any
validated, cache-missing request whose keyword is detected, the surfaced
error is precisely the `start_time` `NameError`. -/
theorem daf_run_success_unreachable (d : RunInput)
    (cachedResult : Option RunOut) (kmKeywords : List String)
    (llmOut : LLMFactoryOut) :
    ((dafRun d cachedResult kmKeywords llmOut).2.1 = [] ∧
     (dafRun d cachedResult kmKeywords llmOut).2.2 = []) ∧
    (cachedResult = none →
      (dafRun d cachedResult kmKeywords llmOut).1.agentClass = none ∧
      (dafRun d cachedResult kmKeywords llmOut).1.status = "error") ∧
    (∀ s k, d.techKeyword = some (.pstr s) → (stripStr s).isEmpty = false →
      cachedResult = none →
      detectKeyword kmKeywords (lowerStr s) = some k →
      (dafRun d cachedResult kmKeywords llmOut).1
        = ⟨none, "error",
            some "Unexpected error: name 'start_time' is not defined"⟩) := by
  refine ⟨⟨?_, ?_⟩, ?_, ?_⟩
  · rcases d with ⟨_ | v⟩
    · rfl
    cases v with
    | pother => rfl
    | pstr s =>
      by_cases hs : (stripStr s).isEmpty <;>
        rcases cachedResult with - | r <;>
        cases hd : detectKeyword kmKeywords (lowerStr s) <;>
        simp [dafRun, hs, hd, startTimeVar]
  · rcases d with ⟨_ | v⟩
    · rfl
    cases v with
    | pother => rfl
    | pstr s =>
      by_cases hs : (stripStr s).isEmpty <;>
        rcases cachedResult with - | r <;>
        cases hd : detectKeyword kmKeywords (lowerStr s) <;>
        simp [dafRun, hs, hd, startTimeVar]
  · rintro rfl
    rcases d with ⟨_ | v⟩
    · exact ⟨rfl, rfl⟩
    cases v with
    | pother => exact ⟨rfl, rfl⟩
    | pstr s =>
      by_cases hs : (stripStr s).isEmpty <;>
        cases hd : detectKeyword kmKeywords (lowerStr s) <;>
        simp [dafRun, hs, hd, startTimeVar]
  · intro s k hd hs hc hdet
    subst hc
    rcases d with ⟨tk⟩
    simp only at hd
    subst hd
    simp [dafRun, hs, hdet, startTimeVar]

/-- Witness for C5's theorem: a well-formed request for `"python"`
against a catalog knowing `python`, with an empty result cache: `run`
returns the `start_time` `NameError` as an error result, touches no
cache and no keyword store. -/
theorem daf_run_success_unreachable_witness :
    (dafRun ⟨some (.pstr "python")⟩ none ["python", "react"]
        ⟨some "PythonAnalyzer", none, some []⟩).1
      = ⟨none, "error",
          some "Unexpected error: name 'start_time' is not defined"⟩ ∧
    (dafRun ⟨some (.pstr "python")⟩ none ["python", "react"]
        ⟨some "PythonAnalyzer", none, some []⟩).2.1 = [] ∧
    (dafRun ⟨some (.pstr "python")⟩ none ["python", "react"]
        ⟨some "PythonAnalyzer", none, some []⟩).2.2 = [] := by
  have h := daf_run_success_unreachable ⟨some (.pstr "python")⟩ none
    ["python", "react"] ⟨some "PythonAnalyzer", none, some []⟩
  exact ⟨h.2.2 "python" "python" rfl (by decide) rfl (by decide),
    h.1.1, h.1.2⟩

end AgentFactory
